import Mathlib

/-!
Shallow embedding of `src/yayoi_classifier/classifier.py`: a rule-based
classifier mapping transaction memo text to accounting subject codes.

Python dictionaries are modelled as association lists in insertion order
(`List (String × _)`); Python float arithmetic is modelled exactly over `ℚ`;
`raise ValueError` is modelled as `Except.error` carrying the message.
String normalization (`str.lower`, `str.strip`) is modelled structurally
over the character list of the string.
-/

namespace Yayoi

/-- The frozen dataclass `ClassificationResult`. -/
structure ClassificationResult where
  subject_code : String
  confidence : ℚ
  matched_keywords : List String
deriving Repr, DecidableEq

/-- The state of `AccountClassifier` after `__init__` stored its two tables. -/
structure AccountClassifier where
  keyword_map : List (String × List String)
  exact_lookup : List (String × String)
deriving Repr, DecidableEq

/-- Drop leading whitespace characters (one side of Python `str.strip()`). -/
def trimLeftChars : List Char → List Char
  | [] => []
  | c :: rest => if c.isWhitespace then trimLeftChars rest else c :: rest

/-- Python `str.lower()`: lowercase every character. -/
def lowerStr (s : String) : String :=
  ⟨s.data.map Char.toLower⟩

/-- Python `str.strip()`: drop leading and trailing whitespace. -/
def trimStr (s : String) : String :=
  ⟨(trimLeftChars ((trimLeftChars s.data).reverse)).reverse⟩

/-- Python `text.lower().strip()`. -/
def normalize (text : String) : String :=
  trimStr (lowerStr text)

/-- Python substring containment `kw in hay` over character lists: `kw`
occurs contiguously somewhere in `hay` (the empty list occurs anywhere). -/
def hasSub (kw : List Char) : List Char → Bool
  | [] => kw.isEmpty
  | c :: rest => kw.isPrefixOf (c :: rest) || hasSub kw rest

/-- `containsSub hay kw` is Python `kw in hay` on strings. -/
def containsSub (hay kw : String) : Bool :=
  hasSub kw.data hay.data

/-- Lookup in the dict built by a comprehension: a later entry with the same
key overwrites an earlier one, so the fold keeps the last match. -/
def lookupExact (l : List (String × String)) (k : String) : Option String :=
  l.foldl (fun acc e => if e.1 = k then some e.2 else acc) none

/-- `AccountClassifier.__init__`: rejects an empty `keyword_map`, lowercases
every keyword and every exact-lookup key, and preserves all values. -/
def init (keyword_map : List (String × List String))
    (exact_lookup : List (String × String)) : Except String AccountClassifier :=
  if keyword_map = [] then
    Except.error "keyword_map must not be empty"
  else
    Except.ok
      { keyword_map := keyword_map.map (fun e => (e.1, e.2.map lowerStr)),
        exact_lookup := exact_lookup.map (fun e => (lowerStr e.1, e.2)) }

/-- The per-code score, `0.6 * raw_score + 0.4 * density`, where
`raw_score = len(matches)` and
`density = sum(len(m) for m in matches) / max(len(normalized), 1)`. -/
def score (ms : List String) (normalized : String) : ℚ :=
  0.6 * (ms.length : ℚ) +
    0.4 * (((ms.map fun m => (m.length : ℚ)).sum) /
      ((max normalized.length 1 : ℕ) : ℚ))

/-- `token_matches`: for each code, in insertion order, the keywords that
occur as substrings of the normalized text, in keyword-list order. -/
def tokenMatches (keyword_map : List (String × List String))
    (normalized : String) : List (String × List String) :=
  keyword_map.map (fun e => (e.1, e.2.filter (fun kw => containsSub normalized kw)))

/-- One iteration of the selection loop: skip a code with no matches, update
the running best only on a strictly greater score (`score > best_score`). -/
def stepBest (normalized : String) (acc : Option String × ℚ × List String)
    (entry : String × List String) : Option String × ℚ × List String :=
  if entry.2 = [] then acc
  else if acc.2.1 < score entry.2 normalized then
    (some entry.1, score entry.2 normalized, entry.2)
  else acc

/-- The selection loop over `token_matches`, started from
`best_code = None, best_score = 0.0, best_keywords = []`. -/
def pickBest (normalized : String) :
    List (String × List String) → (Option String × ℚ × List String) →
    Option String × ℚ × List String
  | [], acc => acc
  | e :: t, acc => pickBest normalized t (stepBest normalized acc e)

/-- `AccountClassifier.classify`. -/
def classify (c : AccountClassifier) (text : String) :
    Except String ClassificationResult :=
  if normalize text = "" then
    Except.error "text must not be empty"
  else
    match lookupExact c.exact_lookup (normalize text) with
    | some subject => Except.ok ⟨subject, 1, [normalize text]⟩
    | none =>
      match pickBest (normalize text)
          (tokenMatches c.keyword_map (normalize text)) (none, 0, []) with
      | (none, _, _) => Except.ok ⟨"UNCLASSIFIED", 0, []⟩
      | (some best_code, best_score, best_keywords) =>
        Except.ok ⟨best_code, min (best_score / (best_score + 1)) 1, best_keywords⟩

/-- Whether an `Except` result is an error (a raised `ValueError`). -/
def isError : Except String α → Bool
  | Except.error _ => true
  | Except.ok _ => false

deriving instance DecidableEq for Except

/-! Branch equations for `classify`. -/

theorem classify_of_empty (c : AccountClassifier) (text : String)
    (h : normalize text = "") :
    classify c text = Except.error "text must not be empty" := by
  unfold classify
  rw [if_pos h]

theorem classify_of_exact (c : AccountClassifier) (text s : String)
    (h1 : ¬ normalize text = "")
    (h2 : lookupExact c.exact_lookup (normalize text) = some s) :
    classify c text = Except.ok ⟨s, 1, [normalize text]⟩ := by
  unfold classify
  rw [if_neg h1, h2]

theorem classify_of_scan_none (c : AccountClassifier) (text : String)
    (q : ℚ) (l : List String)
    (h1 : ¬ normalize text = "")
    (h2 : lookupExact c.exact_lookup (normalize text) = none)
    (h3 : pickBest (normalize text)
        (tokenMatches c.keyword_map (normalize text)) (none, 0, []) = (none, q, l)) :
    classify c text = Except.ok ⟨"UNCLASSIFIED", 0, []⟩ := by
  unfold classify
  rw [if_neg h1, h2, h3]

theorem classify_of_scan_some (c : AccountClassifier) (text : String)
    (bc : String) (bs : ℚ) (bk : List String)
    (h1 : ¬ normalize text = "")
    (h2 : lookupExact c.exact_lookup (normalize text) = none)
    (h3 : pickBest (normalize text)
        (tokenMatches c.keyword_map (normalize text)) (none, 0, []) = (some bc, bs, bk)) :
    classify c text = Except.ok ⟨bc, min (bs / (bs + 1)) 1, bk⟩ := by
  unfold classify
  rw [if_neg h1, h2, h3]

theorem classify_total (c : AccountClassifier) (text : String)
    (h1 : ¬ normalize text = "") :
    ∃ r, classify c text = Except.ok r := by
  cases h2 : lookupExact c.exact_lookup (normalize text) with
  | some s => exact ⟨_, classify_of_exact c text s h1 h2⟩
  | none =>
    rcases h3 : pickBest (normalize text)
        (tokenMatches c.keyword_map (normalize text)) (none, 0, []) with ⟨bc, bs, bk⟩
    cases bc with
    | none => exact ⟨_, classify_of_scan_none c text bs bk h1 h2 h3⟩
    | some b => exact ⟨_, classify_of_scan_some c text b bs bk h1 h2 h3⟩

/-! Arithmetic facts about `score` and the confidence formula. -/

theorem den_pos (n : String) : (0 : ℚ) < ((max n.length 1 : ℕ) : ℚ) := by
  have h : 0 < max n.length 1 := Nat.lt_of_lt_of_le Nat.zero_lt_one (le_max_right _ _)
  exact_mod_cast h

theorem sum_lengths_nonneg (ms : List String) :
    (0 : ℚ) ≤ ((ms.map fun m => (m.length : ℚ)).sum) := by
  apply List.sum_nonneg
  intro x hx
  rcases List.mem_map.mp hx with ⟨m, _, rfl⟩
  exact Nat.cast_nonneg _

theorem score_nonneg (ms : List String) (n : String) : 0 ≤ score ms n := by
  unfold score
  have h1 : (0 : ℚ) ≤ (ms.length : ℚ) := Nat.cast_nonneg _
  have h4 : (0 : ℚ) ≤ ((ms.map fun m => (m.length : ℚ)).sum) /
      ((max n.length 1 : ℕ) : ℚ) :=
    div_nonneg (sum_lengths_nonneg ms) (le_of_lt (den_pos n))
  have e6 : (0.6 : ℚ) = 3 / 5 := by norm_num
  have e4 : (0.4 : ℚ) = 2 / 5 := by norm_num
  rw [e6, e4]
  linarith

theorem score_ge_of_ne_nil (ms : List String) (n : String) (h : ms ≠ []) :
    (3 / 5 : ℚ) ≤ score ms n := by
  unfold score
  have h1 : (1 : ℚ) ≤ (ms.length : ℚ) := by
    exact_mod_cast Nat.one_le_iff_ne_zero.mpr (fun h0 => h (List.length_eq_zero.mp h0))
  have h4 : (0 : ℚ) ≤ ((ms.map fun m => (m.length : ℚ)).sum) /
      ((max n.length 1 : ℕ) : ℚ) :=
    div_nonneg (sum_lengths_nonneg ms) (le_of_lt (den_pos n))
  have e6 : (0.6 : ℚ) = 3 / 5 := by norm_num
  have e4 : (0.4 : ℚ) = 2 / 5 := by norm_num
  rw [e6, e4]
  linarith

theorem score_pos_of_ne_nil (ms : List String) (n : String) (h : ms ≠ []) :
    (0 : ℚ) < score ms n :=
  lt_of_lt_of_le (by norm_num) (score_ge_of_ne_nil ms n h)

theorem ratio_nonneg (s : ℚ) (h : 0 ≤ s) : 0 ≤ s / (s + 1) :=
  div_nonneg h (by linarith)

theorem ratio_lt_one (s : ℚ) (h : 0 ≤ s) : s / (s + 1) < 1 := by
  rw [div_lt_one (by linarith)]
  linarith

theorem ratio_mono (a b : ℚ) (ha : 0 ≤ a) (hab : a ≤ b) :
    a / (a + 1) ≤ b / (b + 1) := by
  rw [div_le_div_iff₀ (by linarith) (by linarith)]
  nlinarith

/-! Characterisation of the selection loop. -/

theorem pickBest_cases (n : String) (tm : List (String × List String))
    (acc : Option String × ℚ × List String) :
    (pickBest n tm acc = acc ∧ ∀ e ∈ tm, e.2 ≠ [] → score e.2 n ≤ acc.2.1) ∨
    (∃ (i : ℕ) (hi : i < tm.length),
      (tm.get ⟨i, hi⟩).2 ≠ [] ∧
      pickBest n tm acc =
        (some (tm.get ⟨i, hi⟩).1, score (tm.get ⟨i, hi⟩).2 n, (tm.get ⟨i, hi⟩).2) ∧
      acc.2.1 < score (tm.get ⟨i, hi⟩).2 n ∧
      (∀ (j : ℕ) (hj : j < tm.length), j < i → (tm.get ⟨j, hj⟩).2 ≠ [] →
        score (tm.get ⟨j, hj⟩).2 n < score (tm.get ⟨i, hi⟩).2 n) ∧
      (∀ (j : ℕ) (hj : j < tm.length), (tm.get ⟨j, hj⟩).2 ≠ [] →
        score (tm.get ⟨j, hj⟩).2 n ≤ score (tm.get ⟨i, hi⟩).2 n)) := by
  induction tm generalizing acc with
  | nil => exact Or.inl ⟨rfl, by simp⟩
  | cons e t ih =>
    have hrec : pickBest n (e :: t) acc = pickBest n t (stepBest n acc e) := rfl
    by_cases he : e.2 = []
    · have hstep : stepBest n acc e = acc := by simp [stepBest, he]
      rcases ih (stepBest n acc e) with ⟨h1, h2⟩ | ⟨i, hi, hne, hres, hgt, hfirst, hmax⟩
      · refine Or.inl ⟨by rw [hrec, h1, hstep], ?_⟩
        intro x hx hxne
        rcases List.mem_cons.mp hx with rfl | hx
        · exact absurd he hxne
        · have hx2 := h2 x hx hxne
          rwa [hstep] at hx2
      · rw [hstep] at hgt
        refine Or.inr ⟨i + 1, Nat.succ_lt_succ hi, hne, hres, hgt, ?_, ?_⟩
        · intro j hj hji hjne
          cases j with
          | zero => exact absurd he hjne
          | succ k =>
            exact hfirst k (Nat.lt_of_succ_lt_succ hj) (Nat.lt_of_succ_lt_succ hji) hjne
        · intro j hj hjne
          cases j with
          | zero => exact absurd he hjne
          | succ k => exact hmax k (Nat.lt_of_succ_lt_succ hj) hjne
    · by_cases hs : acc.2.1 < score e.2 n
      · have hstep : stepBest n acc e = (some e.1, score e.2 n, e.2) := by
          simp [stepBest, he, hs]
        rcases ih (stepBest n acc e) with ⟨h1, h2⟩ | ⟨i, hi, hne, hres, hgt, hfirst, hmax⟩
        · refine Or.inr ⟨0, Nat.succ_pos _, he, by rw [hrec, h1]; exact hstep, hs, ?_, ?_⟩
          · intro j hj hj0
            exact absurd hj0 (Nat.not_lt_zero j)
          · intro j hj hjne
            cases j with
            | zero => exact le_refl _
            | succ k =>
              have hk := Nat.lt_of_succ_lt_succ hj
              have hx2 := h2 (t.get ⟨k, hk⟩) (List.get_mem t k hk) hjne
              rwa [hstep] at hx2
        · rw [hstep] at hgt
          refine Or.inr ⟨i + 1, Nat.succ_lt_succ hi, hne, hres, lt_trans hs hgt, ?_, ?_⟩
          · intro j hj hji hjne
            cases j with
            | zero => exact hgt
            | succ k =>
              exact hfirst k (Nat.lt_of_succ_lt_succ hj) (Nat.lt_of_succ_lt_succ hji) hjne
          · intro j hj hjne
            cases j with
            | zero => exact le_of_lt hgt
            | succ k => exact hmax k (Nat.lt_of_succ_lt_succ hj) hjne
      · have hsle : score e.2 n ≤ acc.2.1 := le_of_not_lt hs
        have hstep : stepBest n acc e = acc := by simp [stepBest, he, hs]
        rcases ih (stepBest n acc e) with ⟨h1, h2⟩ | ⟨i, hi, hne, hres, hgt, hfirst, hmax⟩
        · refine Or.inl ⟨by rw [hrec, h1, hstep], ?_⟩
          intro x hx hxne
          rcases List.mem_cons.mp hx with rfl | hx
          · exact hsle
          · have hx2 := h2 x hx hxne
            rwa [hstep] at hx2
        · rw [hstep] at hgt
          refine Or.inr ⟨i + 1, Nat.succ_lt_succ hi, hne, hres, hgt, ?_, ?_⟩
          · intro j hj hji hjne
            cases j with
            | zero => exact lt_of_le_of_lt hsle hgt
            | succ k =>
              exact hfirst k (Nat.lt_of_succ_lt_succ hj) (Nat.lt_of_succ_lt_succ hji) hjne
          · intro j hj hjne
            cases j with
            | zero => exact le_of_lt (lt_of_le_of_lt hsle hgt)
            | succ k => exact hmax k (Nat.lt_of_succ_lt_succ hj) hjne

theorem pickBest_of_all_empty (n : String) (tm : List (String × List String))
    (h : ∀ e ∈ tm, e.2 = []) :
    pickBest n tm (none, 0, []) = (none, 0, []) := by
  rcases pickBest_cases n tm (none, 0, []) with ⟨h1, _⟩ | ⟨i, hi, hne, _⟩
  · exact h1
  · exact absurd (h (tm.get ⟨i, hi⟩) (List.get_mem tm i hi)) hne

theorem pickBest_some_of_mem (n : String) (tm : List (String × List String))
    (h : ∃ e ∈ tm, e.2 ≠ []) :
    ∃ bc bs bk, pickBest n tm (none, 0, []) = (some bc, bs, bk) := by
  rcases pickBest_cases n tm (none, 0, []) with ⟨_, h2⟩ | ⟨i, hi, _, hres, _⟩
  · rcases h with ⟨e, he, hene⟩
    have hle := h2 e he hene
    have hge := score_ge_of_ne_nil e.2 n hene
    norm_num at hle
    linarith
  · exact ⟨_, _, _, hres⟩

theorem pickBest_some_spec (n : String) (tm : List (String × List String))
    (bc : String) (bs : ℚ) (bk : List String)
    (h : pickBest n tm (none, 0, []) = (some bc, bs, bk)) :
    bk ≠ [] ∧ bs = score bk n ∧
    ∃ (i : ℕ) (hi : i < tm.length), tm.get ⟨i, hi⟩ = (bc, bk) ∧
      (∀ (j : ℕ) (hj : j < tm.length), j < i → (tm.get ⟨j, hj⟩).2 ≠ [] →
        score (tm.get ⟨j, hj⟩).2 n < bs) ∧
      (∀ (j : ℕ) (hj : j < tm.length), (tm.get ⟨j, hj⟩).2 ≠ [] →
        score (tm.get ⟨j, hj⟩).2 n ≤ bs) := by
  rcases pickBest_cases n tm (none, 0, []) with ⟨h1, _⟩ | ⟨i, hi, hne, hres, _, hfirst, hmax⟩
  · rw [h1] at h
    exact absurd (congrArg Prod.fst h) (by simp)
  · rw [hres] at h
    have hc1 : some (tm.get ⟨i, hi⟩).1 = some bc := congrArg Prod.fst h
    have hc2 : score (tm.get ⟨i, hi⟩).2 n = bs := congrArg (fun p => p.2.1) h
    have hc3 : (tm.get ⟨i, hi⟩).2 = bk := congrArg (fun p => p.2.2) h
    have hb1 : (tm.get ⟨i, hi⟩).1 = bc := Option.some.inj hc1
    refine ⟨hc3 ▸ hne, by rw [← hc2, hc3], i, hi, ?_, ?_, ?_⟩
    · exact Prod.ext hb1 hc3
    · intro j hj hji hjne
      exact hc2 ▸ hfirst j hj hji hjne
    · intro j hj hjne
      exact hc2 ▸ hmax j hj hjne

/-- Any successful `classify` call is one of the three outcome shapes:
exact match, `UNCLASSIFIED` fallback, or keyword-scan winner. -/
theorem classify_ok_shape (c : AccountClassifier) (text : String)
    (r : ClassificationResult) (h : classify c text = Except.ok r) :
    (∃ s, lookupExact c.exact_lookup (normalize text) = some s ∧
      r = ⟨s, 1, [normalize text]⟩) ∨
    r = ⟨"UNCLASSIFIED", 0, []⟩ ∨
    (∃ bc bk, bk ≠ [] ∧
      pickBest (normalize text) (tokenMatches c.keyword_map (normalize text))
        (none, 0, []) = (some bc, score bk (normalize text), bk) ∧
      r = ⟨bc, min (score bk (normalize text) /
        (score bk (normalize text) + 1)) 1, bk⟩) := by
  by_cases hn : normalize text = ""
  · rw [classify_of_empty c text hn] at h
    exact absurd h (by simp)
  · cases h2 : lookupExact c.exact_lookup (normalize text) with
    | some s =>
      rw [classify_of_exact c text s hn h2] at h
      exact Or.inl ⟨s, rfl, (Except.ok.inj h).symm⟩
    | none =>
      rcases h3 : pickBest (normalize text)
          (tokenMatches c.keyword_map (normalize text)) (none, 0, []) with ⟨bc, bs, bk⟩
      cases bc with
      | none =>
        rw [classify_of_scan_none c text bs bk hn h2 h3] at h
        exact Or.inr (Or.inl (Except.ok.inj h).symm)
      | some b =>
        obtain ⟨hbk, hbs, -⟩ := pickBest_some_spec _ _ _ _ _ h3
        rw [classify_of_scan_some c text b bs bk hn h2 h3] at h
        subst hbs
        exact Or.inr (Or.inr ⟨b, bk, hbk, rfl, (Except.ok.inj h).symm⟩)

/-! Claim theorems. -/

/-- C1 (amended): for every validly constructed engine and every input text
whose normalized form is non-empty and equals a key of the exact lookup,
`classify` returns that key's mapped code with confidence exactly 1 and
`matched_keywords` the single-element list of the normalized text, regardless
of which keywords the text contains. -/
theorem C1_exact_match (km : List (String × List String))
    (el : List (String × String)) (c : AccountClassifier) (text s : String)
    (_hc : init km el = Except.ok c)
    (hne : normalize text ≠ "")
    (hl : lookupExact c.exact_lookup (normalize text) = some s) :
    classify c text = Except.ok ⟨s, 1, [normalize text]⟩ :=
  classify_of_exact c text s hne hl

/-- C1 counterexample: with the exact-lookup key `""`, the empty input text
normalizes to that key, yet `classify` raises instead of returning the
mapped code with confidence 1. -/
theorem C1_counterexample :
    init [("A", ["x"])] [("", "X")] =
      Except.ok ⟨[("A", ["x"])], [("", "X")]⟩ ∧
    lookupExact [("", "X")] (normalize "") = some "X" ∧
    classify ⟨[("A", ["x"])], [("", "X")]⟩ "" =
      Except.error "text must not be empty" ∧
    classify ⟨[("A", ["x"])], [("", "X")]⟩ "" ≠
      Except.ok ⟨"X", 1, [normalize ""]⟩ := by
  refine ⟨by decide, by decide, classify_of_empty _ _ (by decide), ?_⟩
  rw [classify_of_empty _ _ (by decide)]
  simp

/-- C1 witness. -/
theorem C1_witness :
    classify ⟨[("611", ["train"])], [("ntt", "622")]⟩ "NTT " =
      Except.ok ⟨"622", 1, ["ntt"]⟩ := by
  have h := C1_exact_match [("611", ["train"])] [("ntt", "622")]
    ⟨[("611", ["train"])], [("ntt", "622")]⟩ "NTT " "622"
    (by decide) (by decide) (by decide)
  rw [show normalize "NTT " = "ntt" from by decide] at h
  exact h

/-- C2 (amended): at construction every exact-lookup key is normalized by
lowercasing only (it is not trimmed); consequently, classifying input text
whose lowercased-and-trimmed form is non-empty and equals a lowercased key
hits the exact-match path and returns that key's mapped code with
confidence 1. -/
theorem C2_keys_lowercased (km : List (String × List String))
    (el : List (String × String)) (c : AccountClassifier)
    (hc : init km el = Except.ok c) (text v : String)
    (hne : normalize text ≠ "")
    (hl : lookupExact (el.map fun e => (lowerStr e.1, e.2)) (normalize text) = some v) :
    c.exact_lookup = el.map (fun e => (lowerStr e.1, e.2)) ∧
    classify c text = Except.ok ⟨v, 1, [normalize text]⟩ := by
  unfold init at hc
  by_cases hkm : km = []
  · rw [if_pos hkm] at hc
    exact absurd hc (by simp)
  · rw [if_neg hkm] at hc
    obtain rfl := (Except.ok.inj hc)
    exact ⟨rfl, classify_of_exact _ text v hne hl⟩

/-- C2 counterexample: the exact-lookup key `" ABC "` is stored lowercased
but untrimmed as `" abc "`, so input `"ABC"` (normalizing to `"abc"`) misses
the exact-match path and falls through to `UNCLASSIFIED` instead of
returning `"X"` with confidence 1. -/
theorem C2_counterexample :
    init [("A", ["zzz"])] [(" ABC ", "X")] =
      Except.ok ⟨[("A", ["zzz"])], [(" abc ", "X")]⟩ ∧
    classify ⟨[("A", ["zzz"])], [(" abc ", "X")]⟩ "ABC" =
      Except.ok ⟨"UNCLASSIFIED", 0, []⟩ ∧
    classify ⟨[("A", ["zzz"])], [(" abc ", "X")]⟩ "ABC" ≠
      Except.ok ⟨"X", 1, [normalize "ABC"]⟩ := by
  have hcl : classify ⟨[("A", ["zzz"])], [(" abc ", "X")]⟩ "ABC" =
      Except.ok ⟨"UNCLASSIFIED", 0, []⟩ :=
    classify_of_scan_none _ _ 0 [] (by decide) (by decide) rfl
  refine ⟨by decide, hcl, ?_⟩
  rw [hcl]
  intro h
  have h2 : "UNCLASSIFIED" = "X" :=
    congrArg ClassificationResult.subject_code (Except.ok.inj h)
  exact absurd h2 (by decide)

/-- C2 witness. -/
theorem C2_witness :
    (⟨[("A", ["x"])], [("ntt", "622")]⟩ : AccountClassifier).exact_lookup =
      [("NTT", "622")].map (fun e => (lowerStr e.1, e.2)) ∧
    classify ⟨[("A", ["x"])], [("ntt", "622")]⟩ " NTT " =
      Except.ok ⟨"622", 1, [normalize " NTT "]⟩ :=
  C2_keys_lowercased [("A", ["x"])] [("NTT", "622")]
    ⟨[("A", ["x"])], [("ntt", "622")]⟩ (by decide) " NTT " "622"
    (by decide) (by decide)

/-- C6: a valid input containing none of the configured keywords as a
substring, whose normalized form is not an exact-lookup key, yields
`UNCLASSIFIED` with confidence 0 and no matched keywords, not an error. -/
theorem C6_no_match (c : AccountClassifier) (text : String)
    (hne : normalize text ≠ "")
    (hl : lookupExact c.exact_lookup (normalize text) = none)
    (hk : ∀ e ∈ c.keyword_map, ∀ kw ∈ e.2, containsSub (normalize text) kw = false) :
    classify c text = Except.ok ⟨"UNCLASSIFIED", 0, []⟩ := by
  have hall : ∀ e ∈ tokenMatches c.keyword_map (normalize text), e.2 = [] := by
    intro e he
    rcases List.mem_map.mp he with ⟨e0, he0, rfl⟩
    simp only [List.filter_eq_nil_iff]
    intro kw hkw
    simp [hk e0 he0 kw hkw]
  exact classify_of_scan_none c text 0 [] hne hl
    (pickBest_of_all_empty _ _ hall)

/-- C6 witness. -/
theorem C6_witness :
    classify ⟨[("A", ["zz"])], []⟩ "q" = Except.ok ⟨"UNCLASSIFIED", 0, []⟩ :=
  C6_no_match ⟨[("A", ["zz"])], []⟩ "q" (by decide) (by decide) (by decide)

/-- C7: construction fails (with the invalid-configuration error) exactly
when the keyword mapping is empty; any non-empty keyword mapping, with any
exact lookup, constructs successfully with the stored, lowercased tables. -/
theorem C7_init_iff (km : List (String × List String))
    (el : List (String × String)) :
    (isError (init km el) = true ↔ km = []) ∧
    (km = [] → init km el = Except.error "keyword_map must not be empty") ∧
    (km ≠ [] → init km el =
      Except.ok ⟨km.map (fun e => (e.1, e.2.map lowerStr)),
        el.map (fun e => (lowerStr e.1, e.2))⟩) := by
  by_cases h : km = [] <;> simp [init, isError, h]

/-- C7 witness. -/
theorem C7_witness :
    init ([] : List (String × List String)) ([] : List (String × String)) =
      Except.error "keyword_map must not be empty" ∧
    init [("A", ["x"])] ([] : List (String × String)) =
      Except.ok ⟨[("A", ["x"])].map (fun e => (e.1, e.2.map lowerStr)),
        ([] : List (String × String)).map (fun e => (lowerStr e.1, e.2))⟩ :=
  ⟨(C7_init_iff [] []).2.1 rfl, (C7_init_iff [("A", ["x"])] []).2.2 (by decide)⟩

/-- C8: `classify` fails if and only if the input text lowercases and trims
to the empty string (covering `""` and whitespace-only input), and the only
failure it ever produces is that invalid-input error; as a pure function of
the immutable engine value, a failed call leaves the engine unchanged. -/
theorem C8_empty_input (c : AccountClassifier) (text : String) :
    (isError (classify c text) = true ↔ normalize text = "") ∧
    (normalize text = "" → classify c text = Except.error "text must not be empty") := by
  by_cases hn : normalize text = ""
  · rw [classify_of_empty c text hn]
    simp [isError, hn]
  · obtain ⟨r, hr⟩ := classify_total c text hn
    rw [hr]
    simp [isError, hn]

/-- C8 witness. -/
theorem C8_witness :
    isError (classify ⟨[("A", ["x"])], []⟩ "   ") = true :=
  (C8_empty_input ⟨[("A", ["x"])], []⟩ "   ").1.mpr (by decide)

/-- C3: whenever the keyword scan decides the result (no exact match, at
least one code with a match), the returned code is the entry at some index
`i` of `token_matches` (the mapping's insertion order) whose matches are
non-empty, every earlier code with matches has a strictly smaller score
(so a tie never overwrites an earlier code), and no code with matches has
a larger score; a code with zero matches is never selected. -/
theorem C3_first_strict_max (c : AccountClassifier) (text : String)
    (hne : normalize text ≠ "")
    (hl : lookupExact c.exact_lookup (normalize text) = none)
    (hm : ∃ e ∈ tokenMatches c.keyword_map (normalize text), e.2 ≠ []) :
    ∃ (i : ℕ) (hi : i < (tokenMatches c.keyword_map (normalize text)).length),
      ((tokenMatches c.keyword_map (normalize text)).get ⟨i, hi⟩).2 ≠ [] ∧
      classify c text = Except.ok
        ⟨((tokenMatches c.keyword_map (normalize text)).get ⟨i, hi⟩).1,
          min (score ((tokenMatches c.keyword_map (normalize text)).get ⟨i, hi⟩).2
              (normalize text) /
            (score ((tokenMatches c.keyword_map (normalize text)).get ⟨i, hi⟩).2
              (normalize text) + 1)) 1,
          ((tokenMatches c.keyword_map (normalize text)).get ⟨i, hi⟩).2⟩ ∧
      (∀ (j : ℕ) (hj : j < (tokenMatches c.keyword_map (normalize text)).length),
        j < i → ((tokenMatches c.keyword_map (normalize text)).get ⟨j, hj⟩).2 ≠ [] →
        score ((tokenMatches c.keyword_map (normalize text)).get ⟨j, hj⟩).2
            (normalize text) <
          score ((tokenMatches c.keyword_map (normalize text)).get ⟨i, hi⟩).2
            (normalize text)) ∧
      (∀ (j : ℕ) (hj : j < (tokenMatches c.keyword_map (normalize text)).length),
        ((tokenMatches c.keyword_map (normalize text)).get ⟨j, hj⟩).2 ≠ [] →
        score ((tokenMatches c.keyword_map (normalize text)).get ⟨j, hj⟩).2
            (normalize text) ≤
          score ((tokenMatches c.keyword_map (normalize text)).get ⟨i, hi⟩).2
            (normalize text)) := by
  obtain ⟨bc, bs, bk, hp⟩ := pickBest_some_of_mem _ _ hm
  obtain ⟨hbk, hbs, i, hi, hget, hfirst, hmax⟩ := pickBest_some_spec _ _ _ _ _ hp
  refine ⟨i, hi, ?_, ?_, ?_, ?_⟩
  · rw [hget]
    exact hbk
  · have hcl := classify_of_scan_some c text bc bs bk hne hl hp
    rw [hget]
    show classify c text = Except.ok
      ⟨bc, min (score bk (normalize text) / (score bk (normalize text) + 1)) 1, bk⟩
    rw [← hbs]
    exact hcl
  · intro j hj hji hjne
    rw [hget]
    show score ((tokenMatches c.keyword_map (normalize text)).get ⟨j, hj⟩).2
        (normalize text) < score bk (normalize text)
    rw [← hbs]
    exact hfirst j hj hji hjne
  · intro j hj hjne
    rw [hget]
    show score ((tokenMatches c.keyword_map (normalize text)).get ⟨j, hj⟩).2
        (normalize text) ≤ score bk (normalize text)
    rw [← hbs]
    exact hmax j hj hjne

/-- C3 witness: a concrete tie (both codes score 1 on input `"x"`). -/
theorem C3_witness :
    ∃ (i : ℕ) (hi : i < (tokenMatches
        (⟨[("A", ["x"]), ("B", ["x"])], []⟩ : AccountClassifier).keyword_map
        (normalize "x")).length),
      ((tokenMatches (⟨[("A", ["x"]), ("B", ["x"])], []⟩ : AccountClassifier).keyword_map
        (normalize "x")).get ⟨i, hi⟩).2 ≠ [] ∧
      classify ⟨[("A", ["x"]), ("B", ["x"])], []⟩ "x" = Except.ok
        ⟨((tokenMatches (⟨[("A", ["x"]), ("B", ["x"])], []⟩ : AccountClassifier).keyword_map
            (normalize "x")).get ⟨i, hi⟩).1,
          min (score ((tokenMatches
              (⟨[("A", ["x"]), ("B", ["x"])], []⟩ : AccountClassifier).keyword_map
              (normalize "x")).get ⟨i, hi⟩).2 (normalize "x") /
            (score ((tokenMatches
              (⟨[("A", ["x"]), ("B", ["x"])], []⟩ : AccountClassifier).keyword_map
              (normalize "x")).get ⟨i, hi⟩).2 (normalize "x") + 1)) 1,
          ((tokenMatches (⟨[("A", ["x"]), ("B", ["x"])], []⟩ : AccountClassifier).keyword_map
            (normalize "x")).get ⟨i, hi⟩).2⟩ ∧
      (∀ (j : ℕ) (hj : j < (tokenMatches
          (⟨[("A", ["x"]), ("B", ["x"])], []⟩ : AccountClassifier).keyword_map
          (normalize "x")).length),
        j < i → ((tokenMatches
          (⟨[("A", ["x"]), ("B", ["x"])], []⟩ : AccountClassifier).keyword_map
          (normalize "x")).get ⟨j, hj⟩).2 ≠ [] →
        score ((tokenMatches
            (⟨[("A", ["x"]), ("B", ["x"])], []⟩ : AccountClassifier).keyword_map
            (normalize "x")).get ⟨j, hj⟩).2 (normalize "x") <
          score ((tokenMatches
            (⟨[("A", ["x"]), ("B", ["x"])], []⟩ : AccountClassifier).keyword_map
            (normalize "x")).get ⟨i, hi⟩).2 (normalize "x")) ∧
      (∀ (j : ℕ) (hj : j < (tokenMatches
          (⟨[("A", ["x"]), ("B", ["x"])], []⟩ : AccountClassifier).keyword_map
          (normalize "x")).length),
        ((tokenMatches
          (⟨[("A", ["x"]), ("B", ["x"])], []⟩ : AccountClassifier).keyword_map
          (normalize "x")).get ⟨j, hj⟩).2 ≠ [] →
        score ((tokenMatches
            (⟨[("A", ["x"]), ("B", ["x"])], []⟩ : AccountClassifier).keyword_map
            (normalize "x")).get ⟨j, hj⟩).2 (normalize "x") ≤
          score ((tokenMatches
            (⟨[("A", ["x"]), ("B", ["x"])], []⟩ : AccountClassifier).keyword_map
            (normalize "x")).get ⟨i, hi⟩).2 (normalize "x")) :=
  C3_first_strict_max ⟨[("A", ["x"]), ("B", ["x"])], []⟩ "x"
    (by decide) (by decide) (by decide)

/-- C4 (amended): the matched keywords of any successful classification
contain a given keyword at most as often as the code's configured
(lowercased) keyword list does; in particular, for an engine whose per-code
keyword lists are duplicate-free after lowercasing, every keyword is
recorded at most once per code per call — even when it occurs at several
offsets of the text, since matching is per-keyword, not per-occurrence. -/
theorem C4_no_duplicate_records (km : List (String × List String))
    (el : List (String × String)) (c : AccountClassifier)
    (hc : init km el = Except.ok c) (text : String) (r : ClassificationResult)
    (hr : classify c text = Except.ok r)
    (hnd : ∀ e ∈ km, (e.2.map lowerStr).Nodup) :
    ∀ kw, r.matched_keywords.count kw ≤ 1 := by
  intro kw
  rcases classify_ok_shape c text r hr with ⟨s, -, rfl⟩ | rfl | ⟨bc, bk, hbk, hp, rfl⟩
  · exact le_trans (List.count_le_length _ _) (by simp)
  · simp
  · obtain ⟨-, -, i, hi, hget, -, -⟩ := pickBest_some_spec _ _ _ _ _ hp
    have hmem : (tokenMatches c.keyword_map (normalize text)).get ⟨i, hi⟩ ∈
        tokenMatches c.keyword_map (normalize text) := List.get_mem _ i hi
    rw [hget] at hmem
    rcases List.mem_map.mp hmem with ⟨e0, he0, heq⟩
    have hbk2 : bk = e0.2.filter (fun kw2 => containsSub (normalize text) kw2) :=
      (congrArg Prod.snd heq).symm
    unfold init at hc
    by_cases hkm : km = []
    · rw [if_pos hkm] at hc
      exact absurd hc (by simp)
    · rw [if_neg hkm] at hc
      obtain rfl := Except.ok.inj hc
      rcases List.mem_map.mp he0 with ⟨e1, he1, heq1⟩
      have hnd0 : (e0.2).Nodup := by
        rw [show e0.2 = e1.2.map lowerStr from (congrArg Prod.snd heq1).symm]
        exact hnd e1 he1
      show (bk.count kw) ≤ 1
      rw [hbk2]
      exact List.nodup_iff_count_le_one.mp (List.Nodup.filter _ hnd0) kw

/-- C4 counterexample: an engine configured with the duplicate keyword list
`["x", "x"]` records the keyword twice for the code in a single call — it
appears twice in `matched_keywords` (so `raw_score` counts it twice). -/
theorem C4_counterexample :
    init [("A", ["x", "x"])] [] = Except.ok ⟨[("A", ["x", "x"])], []⟩ ∧
    Except.map ClassificationResult.matched_keywords
      (classify ⟨[("A", ["x", "x"])], []⟩ "x") = Except.ok ["x", "x"] ∧
    (["x", "x"] : List String).count "x" = 2 := by
  have hpos : ((none, (0 : ℚ), ([] : List String)) :
      Option String × ℚ × List String).2.1 <
      score (("A", ["x", "x"]) : String × List String).2 (normalize "x") :=
    score_pos_of_ne_nil _ _ (by decide)
  have hstep : stepBest (normalize "x") (none, 0, []) ("A", ["x", "x"]) =
      (some "A", score ["x", "x"] (normalize "x"), ["x", "x"]) := by
    unfold stepBest
    rw [if_neg (by decide : ¬(("A", ["x", "x"]) : String × List String).2 = []),
      if_pos hpos]
  have hpick : pickBest (normalize "x")
      (tokenMatches [("A", ["x", "x"])] (normalize "x")) (none, 0, []) =
      (some "A", score ["x", "x"] (normalize "x"), ["x", "x"]) := by
    rw [show tokenMatches [("A", ["x", "x"])] (normalize "x") = [("A", ["x", "x"])]
      from by decide]
    exact hstep
  have hok : classify ⟨[("A", ["x", "x"])], []⟩ "x" = Except.ok
      ⟨"A", min ((score ["x", "x"] (normalize "x")) /
        (score ["x", "x"] (normalize "x") + 1)) 1, ["x", "x"]⟩ :=
    classify_of_scan_some _ _ "A" _ ["x", "x"] (by decide) (by decide) hpick
  refine ⟨by decide, ?_, by decide⟩
  rw [hok]
  rfl

/-- C4 witness. -/
theorem C4_witness :
    (⟨"622", 1, ["ntt"]⟩ : ClassificationResult).matched_keywords.count "ntt" ≤ 1 := by
  have hr : classify ⟨[("A", ["x"])], [("ntt", "622")]⟩ "NTT" =
      Except.ok ⟨"622", 1, ["ntt"]⟩ := by
    have h := classify_of_exact ⟨[("A", ["x"])], [("ntt", "622")]⟩ "NTT" "622"
      (by decide) (by decide)
    rw [show normalize "NTT" = "ntt" from by decide] at h
    exact h
  exact C4_no_duplicate_records [("A", ["x"])] [("ntt", "622")] _ (by decide)
    "NTT" _ hr (by decide) "ntt"

/-- C5: when the keyword scan decides the result, the returned confidence is
`min (best_score / (best_score + 1), 1)`, which equals
`best_score / (best_score + 1)` and is strictly below 1 (the clamp is never
exercised), where `best_score` is exactly
`0.6 * count + 0.4 * (total keyword length / max(text length, 1))` over the
winning code's matched keywords. -/
theorem C5_scan_confidence (c : AccountClassifier) (text : String)
    (r : ClassificationResult)
    (hne : normalize text ≠ "")
    (hl : lookupExact c.exact_lookup (normalize text) = none)
    (hm : ∃ e ∈ tokenMatches c.keyword_map (normalize text), e.2 ≠ [])
    (hr : classify c text = Except.ok r) :
    r.confidence = min (score r.matched_keywords (normalize text) /
        (score r.matched_keywords (normalize text) + 1)) 1 ∧
    r.confidence = score r.matched_keywords (normalize text) /
        (score r.matched_keywords (normalize text) + 1) ∧
    r.confidence < 1 ∧
    score r.matched_keywords (normalize text) =
      0.6 * (r.matched_keywords.length : ℚ) +
        0.4 * (((r.matched_keywords.map fun m => (m.length : ℚ)).sum) /
          ((max (normalize text).length 1 : ℕ) : ℚ)) := by
  obtain ⟨bc, bs, bk, hp⟩ := pickBest_some_of_mem _ _ hm
  obtain ⟨hbk, hbs, -⟩ := pickBest_some_spec _ _ _ _ _ hp
  have hcl := classify_of_scan_some c text bc bs bk hne hl hp
  rw [hr] at hcl
  obtain rfl := Except.ok.inj hcl
  subst hbs
  have h0 : (0 : ℚ) ≤ score bk (normalize text) := score_nonneg bk (normalize text)
  have hlt := ratio_lt_one (score bk (normalize text)) h0
  have hminEq : min (score bk (normalize text) / (score bk (normalize text) + 1)) 1 =
      score bk (normalize text) / (score bk (normalize text) + 1) :=
    min_eq_left (le_of_lt hlt)
  exact ⟨rfl, hminEq, lt_of_le_of_lt (min_le_left _ _) hlt, rfl⟩

/-- C5 witness: keyword `"ab"` on input `"ab"` scores 1, confidence 1/2. -/
theorem C5_witness :
    (⟨"A", 1/2, ["ab"]⟩ : ClassificationResult).confidence =
      min (score (⟨"A", 1/2, ["ab"]⟩ : ClassificationResult).matched_keywords
          (normalize "ab") /
        (score (⟨"A", 1/2, ["ab"]⟩ : ClassificationResult).matched_keywords
          (normalize "ab") + 1)) 1 ∧
    (⟨"A", 1/2, ["ab"]⟩ : ClassificationResult).confidence =
      score (⟨"A", 1/2, ["ab"]⟩ : ClassificationResult).matched_keywords
          (normalize "ab") /
        (score (⟨"A", 1/2, ["ab"]⟩ : ClassificationResult).matched_keywords
          (normalize "ab") + 1) ∧
    (⟨"A", 1/2, ["ab"]⟩ : ClassificationResult).confidence < 1 ∧
    score (⟨"A", 1/2, ["ab"]⟩ : ClassificationResult).matched_keywords
        (normalize "ab") =
      0.6 * ((⟨"A", 1/2, ["ab"]⟩ : ClassificationResult).matched_keywords.length : ℚ) +
        0.4 * ((((⟨"A", 1/2, ["ab"]⟩ : ClassificationResult).matched_keywords.map
            fun m => (m.length : ℚ)).sum) /
          ((max (normalize "ab").length 1 : ℕ) : ℚ)) := by
  have hs : score ["ab"] (normalize "ab") = 1 := by
    rw [show normalize "ab" = "ab" from by decide]
    unfold score
    rw [show (["ab"] : List String).length = 1 from by decide,
      show (["ab"] : List String).map (fun m => (m.length : ℚ)) = [(2 : ℚ)] from by
        simp [show ("ab" : String).length = 2 from by decide],
      show max ("ab" : String).length 1 = 2 from by decide]
    norm_num
  have hpos : ((none, (0 : ℚ), ([] : List String)) :
      Option String × ℚ × List String).2.1 <
      score (("A", ["ab"]) : String × List String).2 (normalize "ab") :=
    score_pos_of_ne_nil _ _ (by decide)
  have hstep : stepBest (normalize "ab") (none, 0, []) ("A", ["ab"]) =
      (some "A", score ["ab"] (normalize "ab"), ["ab"]) := by
    unfold stepBest
    rw [if_neg (by decide : ¬(("A", ["ab"]) : String × List String).2 = []),
      if_pos hpos]
  have hpick : pickBest (normalize "ab")
      (tokenMatches [("A", ["ab"])] (normalize "ab")) (none, 0, []) =
      (some "A", score ["ab"] (normalize "ab"), ["ab"]) := by
    rw [show tokenMatches [("A", ["ab"])] (normalize "ab") = [("A", ["ab"])]
      from by decide]
    exact hstep
  have hr : classify ⟨[("A", ["ab"])], []⟩ "ab" = Except.ok ⟨"A", 1/2, ["ab"]⟩ := by
    have h := classify_of_scan_some ⟨[("A", ["ab"])], []⟩ "ab" "A"
      (score ["ab"] (normalize "ab")) ["ab"] (by decide) (by decide) hpick
    rw [hs] at h
    rw [show min ((1 : ℚ) / (1 + 1)) 1 = 1/2 from by norm_num] at h
    exact h
  exact C5_scan_confidence ⟨[("A", ["ab"])], []⟩ "ab" ⟨"A", 1/2, ["ab"]⟩
    (by decide) (by decide) (by decide) hr

/-- C9: every successful classification has confidence within [0, 1],
across all three outcome branches. -/
theorem C9_confidence_bounds (c : AccountClassifier) (text : String)
    (r : ClassificationResult) (hr : classify c text = Except.ok r) :
    0 ≤ r.confidence ∧ r.confidence ≤ 1 := by
  rcases classify_ok_shape c text r hr with ⟨s, -, rfl⟩ | rfl | ⟨bc, bk, hbk, -, rfl⟩
  · exact ⟨by norm_num, by norm_num⟩
  · exact ⟨by norm_num, by norm_num⟩
  · have h0 : (0 : ℚ) ≤ score bk (normalize text) := score_nonneg _ _
    exact ⟨le_min (ratio_nonneg _ h0) zero_le_one, min_le_right _ _⟩

/-- C9 witness. -/
theorem C9_witness :
    0 ≤ (⟨"622", 1, ["ntt"]⟩ : ClassificationResult).confidence ∧
    (⟨"622", 1, ["ntt"]⟩ : ClassificationResult).confidence ≤ 1 := by
  have hr : classify ⟨[("B", ["y"])], [("ntt", "622")]⟩ "NTT" =
      Except.ok ⟨"622", 1, ["ntt"]⟩ := by
    have h := classify_of_exact ⟨[("B", ["y"])], [("ntt", "622")]⟩ "NTT" "622"
      (by decide) (by decide)
    rw [show normalize "NTT" = "ntt" from by decide] at h
    exact h
  exact C9_confidence_bounds _ _ _ hr

/-- C10: the matched-keyword list of a successful classification is empty
exactly when the confidence is 0; moreover the confidence is either 0 or at
least 3/8 = 0.375 (the exact branch returns 1, a scan winner at least
(3/5)/(8/5) = 3/8, the fallback exactly 0). -/
theorem C10_matched_iff_zero_confidence (c : AccountClassifier) (text : String)
    (r : ClassificationResult) (hr : classify c text = Except.ok r) :
    (r.matched_keywords = [] ↔ r.confidence = 0) ∧
    (r.confidence = 0 ∨ (3/8 : ℚ) ≤ r.confidence) := by
  rcases classify_ok_shape c text r hr with ⟨s, -, rfl⟩ | rfl | ⟨bc, bk, hbk, -, rfl⟩
  · refine ⟨⟨fun h => absurd h (by simp), fun h => absurd h (by norm_num)⟩, ?_⟩
    right
    norm_num
  · exact ⟨by simp, Or.inl rfl⟩
  · have hge := score_ge_of_ne_nil bk (normalize text) hbk
    have h0 : (0 : ℚ) ≤ score bk (normalize text) := score_nonneg _ _
    have hlt := ratio_lt_one (score bk (normalize text)) h0
    have hminEq : min (score bk (normalize text) /
        (score bk (normalize text) + 1)) 1 =
        score bk (normalize text) / (score bk (normalize text) + 1) :=
      min_eq_left (le_of_lt hlt)
    have hmono := ratio_mono (3/5) (score bk (normalize text)) (by norm_num) hge
    have h38 : (3/8 : ℚ) ≤ score bk (normalize text) /
        (score bk (normalize text) + 1) := by
      have he : ((3 : ℚ)/5) / ((3 : ℚ)/5 + 1) = 3/8 := by norm_num
      rw [he] at hmono
      exact hmono
    have hpos : (0 : ℚ) < min (score bk (normalize text) /
        (score bk (normalize text) + 1)) 1 := by
      rw [hminEq]
      linarith
    refine ⟨⟨fun h => absurd h hbk, fun h => absurd h (ne_of_gt hpos)⟩, ?_⟩
    right
    show (3/8 : ℚ) ≤ min (score bk (normalize text) /
      (score bk (normalize text) + 1)) 1
    rw [hminEq]
    exact h38

/-- C10 witness. -/
theorem C10_witness :
    ((⟨"622", 1, ["ntt"]⟩ : ClassificationResult).matched_keywords = [] ↔
      (⟨"622", 1, ["ntt"]⟩ : ClassificationResult).confidence = 0) ∧
    ((⟨"622", 1, ["ntt"]⟩ : ClassificationResult).confidence = 0 ∨
      (3/8 : ℚ) ≤ (⟨"622", 1, ["ntt"]⟩ : ClassificationResult).confidence) := by
  have hr : classify ⟨[("C", ["w"])], [("ntt", "622")]⟩ "NTT" =
      Except.ok ⟨"622", 1, ["ntt"]⟩ := by
    have h := classify_of_exact ⟨[("C", ["w"])], [("ntt", "622")]⟩ "NTT" "622"
      (by decide) (by decide)
    rw [show normalize "NTT" = "ntt" from by decide] at h
    exact h
  exact C10_matched_iff_zero_confidence _ _ _ hr

end Yayoi
